import Mathlib

/-!
GeneratedAssetSymbols.h

A verification development for the generated asset-symbol header of the DF799
application: the header text itself, a reader for its lines, the C preprocessor's
view of its `AC_SWIFT_PRIVATE` macro, and the symbol-table emitter that the
specification describes.
-/

namespace GeneratedAssetSymbols

/-! ## The header, as it stands in the repository -/

/-- The 21 lines of `GeneratedAssetSymbols.h`, top to bottom.  In the file the lines
are separated by one newline each and the last line is not followed by one. -/
def headerLines : List String :=
  [ "#import <Foundation/Foundation.h>",
    "",
    "#if __has_attribute(swift_private)",
    "#define AC_SWIFT_PRIVATE __attribute__((swift_private))",
    "#else",
    "#define AC_SWIFT_PRIVATE",
    "#endif",
    "",
    "/// The resource bundle ID.",
    "static NSString * const ACBundleID AC_SWIFT_PRIVATE = @\"IOI.DF799\";",
    "",
    "/// The \"AccentOrange\" asset catalog color resource.",
    "static NSString * const ACColorNameAccentOrange AC_SWIFT_PRIVATE = @\"AccentOrange\";",
    "",
    "/// The \"DeepGreen\" asset catalog color resource.",
    "static NSString * const ACColorNameDeepGreen AC_SWIFT_PRIVATE = @\"DeepGreen\";",
    "",
    "/// The \"PrimaryYellow\" asset catalog color resource.",
    "static NSString * const ACColorNamePrimaryYellow AC_SWIFT_PRIVATE = @\"PrimaryYellow\";",
    "",
    "#undef AC_SWIFT_PRIVATE" ]

/-- Lines joined by single newlines, with none after the last line. -/
def joinLines : List String → String
  | [] => ""
  | [l] => l
  | l :: rest => l ++ "\n" ++ joinLines rest

/-- The header as one text, byte for byte the content of the file. -/
def headerText : String := joinLines headerLines

/-! ## Reading the lines of the header -/

/-- A character that may occur in a C identifier: a letter, a digit or an underscore. -/
def isIdentChar (c : Char) : Bool := c.isAlpha || c.isDigit || c == '_'

/-- A character that may start a C identifier: a letter or an underscore. -/
def isIdentStart (c : Char) : Bool := c.isAlpha || c == '_'

/-- A valid C identifier: not empty, starting with a letter or an underscore, and made of
letters, digits and underscores only. -/
def isValidIdentifier (s : String) : Bool :=
  match s.data with
  | [] => false
  | c :: cs => isIdentStart c && cs.all isIdentChar

/-- Remove the literal `lead` from the front of `s`, when `s` starts with it. -/
def dropLead : List Char → List Char → Option (List Char)
  | [], s => some s
  | _ :: _, [] => none
  | p :: ps, c :: cs => if p = c then dropLead ps cs else none

/-- Whether `needle` occurs somewhere in `hay` as a contiguous run of characters. -/
def containsSub (needle : List Char) : List Char → Bool
  | [] => needle.isEmpty
  | c :: cs => (dropLead needle (c :: cs)).isSome || containsSub needle cs

/-- The preprocessor directives that occur in the header. -/
inductive Directive
  | importFile (target : String)
  | ifHasAttribute (attr : String)
  | define (name body : String)
  | elseBranch
  | endif
  | undefine (name : String)
  deriving DecidableEq, Repr

/-- What one line of the header is. -/
inductive Line
  | blank
  | directive (d : Directive)
  | docComment (text : String)
  | declaration (symbol attrName value : String)
  | unknown (text : String)
  deriving DecidableEq, Repr

/-- A line that could not be read as a blank line, a directive, a documentation comment
or a constant declaration. -/
def Line.isUnknown : Line → Bool
  | .unknown _ => true
  | _ => false

/-- The text of a directive. -/
def Directive.text : Directive → String
  | .importFile t => "#import <" ++ t ++ ">"
  | .ifHasAttribute a => "#if __has_attribute(" ++ a ++ ")"
  | .define n b => if b.data.isEmpty then "#define " ++ n else "#define " ++ n ++ " " ++ b
  | .elseBranch => "#else"
  | .endif => "#endif"
  | .undefine n => "#undef " ++ n

/-- The text of a line: what `readLine` read it from. -/
def Line.text : Line → String
  | .blank => ""
  | .directive d => d.text
  | .docComment t => "/// " ++ t
  | .declaration sym attr val =>
    "static NSString * const " ++ sym ++ " " ++ attr ++ " = @\"" ++ val ++ "\";"
  | .unknown t => t

/-- Read `#import <target>`. -/
def readImport (s : List Char) : Option Directive :=
  match dropLead "#import <".data s with
  | none => none
  | some rest =>
    match rest.dropWhile (fun c => c != '>') with
    | ['>'] => some (.importFile ⟨rest.takeWhile (fun c => c != '>')⟩)
    | _ => none

/-- Read `#if __has_attribute(name)`. -/
def readIf (s : List Char) : Option Directive :=
  match dropLead "#if __has_attribute(".data s with
  | none => none
  | some rest =>
    match rest.dropWhile isIdentChar with
    | [')'] => some (.ifHasAttribute ⟨rest.takeWhile isIdentChar⟩)
    | _ => none

/-- Read `#define NAME` or `#define NAME body`. -/
def readDefine (s : List Char) : Option Directive :=
  match dropLead "#define ".data s with
  | none => none
  | some rest =>
    match rest.takeWhile isIdentChar, rest.dropWhile isIdentChar with
    | [], _ => none
    | name, [] => some (.define ⟨name⟩ "")
    | name, ' ' :: body => some (.define ⟨name⟩ ⟨body⟩)
    | _, _ => none

/-- Read `#undef NAME`. -/
def readUndef (s : List Char) : Option Directive :=
  match dropLead "#undef ".data s with
  | none => none
  | some rest =>
    match rest.takeWhile isIdentChar, rest.dropWhile isIdentChar with
    | [], _ => none
    | name, [] => some (.undefine ⟨name⟩)
    | _, _ => none

/-- Read a preprocessor directive. -/
def readDirective (s : List Char) : Option Directive :=
  if s = "#else".data then some .elseBranch
  else if s = "#endif".data then some .endif
  else (readImport s).orElse fun _ => (readIf s).orElse fun _ =>
    (readDefine s).orElse fun _ => readUndef s

/-- Read `static NSString * const SYMBOL ATTRIBUTE = @"value";`. -/
def readDeclaration (s : List Char) : Option Line :=
  match dropLead "static NSString * const ".data s with
  | none => none
  | some r1 =>
    match dropLead " ".data (r1.dropWhile isIdentChar) with
    | none => none
    | some r2 =>
      match dropLead " = @\"".data (r2.dropWhile isIdentChar) with
      | none => none
      | some r3 =>
        match r3.dropWhile (fun c => c != '"') with
        | ['"', ';'] =>
          some (.declaration ⟨r1.takeWhile isIdentChar⟩ ⟨r2.takeWhile isIdentChar⟩
            ⟨r3.takeWhile (fun c => c != '"')⟩)
        | _ => none

/-- Read one line of the header. -/
def readLine (l : String) : Line :=
  match l.data with
  | [] => .blank
  | '#' :: rest =>
    match readDirective ('#' :: rest) with
    | some d => .directive d
    | none => .unknown l
  | s =>
    match dropLead "/// ".data s with
    | some text => .docComment ⟨text⟩
    | none =>
      match readDeclaration s with
      | some d => d
      | none => .unknown l

/-- The header, read line by line. -/
def headerRead : List Line := headerLines.map readLine

/-- The constants a list of lines declares, as (symbol, value) pairs in order. -/
def constants : List Line → List (String × String)
  | [] => []
  | .declaration sym _ val :: rest => (sym, val) :: constants rest
  | _ :: rest => constants rest

/-- A declaration together with the documentation comments that stand on the lines
directly before it (no blank or other line in between), in order. -/
structure Documented where
  docs : List String
  symbol : String
  value : String
  deriving DecidableEq, Repr

/-- Walk the lines, collecting the run of documentation comments that ends at each line;
a declaration takes the run collected so far, any other line discards it. -/
def documentedFrom : List String → List Line → List Documented
  | _, [] => []
  | pending, .docComment t :: rest => documentedFrom (pending ++ [t]) rest
  | pending, .declaration sym _ val :: rest => ⟨pending, sym, val⟩ :: documentedFrom [] rest
  | _, _ :: rest => documentedFrom [] rest

/-- The declarations of a list of lines, each with the comments directly before it. -/
def documented (ls : List Line) : List Documented := documentedFrom [] ls

/-- The text `"v"`: the value between double quotes. -/
def quoted (v : String) : String := "\"" ++ v ++ "\""

/-- A declaration is preceded by exactly one comment line, and that line contains the
quoted literal value of the constant. -/
def docNamesValue (d : Documented) : Bool :=
  match d.docs with
  | [t] => containsSub (quoted d.value).data t.data
  | _ => false

/-! ## The preprocessor's view of the header -/

/-- The macros defined at a point of a translation unit, each with its replacement
text, the most recently defined first. -/
abbrev MacroEnv := List (String × String)

/-- `#undef name`: the macro is no longer defined; the others are untouched. -/
def MacroEnv.undefine (env : MacroEnv) (name : String) : MacroEnv :=
  env.filter fun m => m.1 != name

/-- `#define name body`: the macro is defined with this replacement text. -/
def MacroEnv.define (env : MacroEnv) (name body : String) : MacroEnv :=
  (name, body) :: env.undefine name

/-- The replacement text of a macro, when it is defined. -/
def MacroEnv.lookup (env : MacroEnv) (name : String) : Option String :=
  (env.find? fun m => m.1 == name).map Prod.snd

/-- Whether a macro is defined. -/
def MacroEnv.isDefined (env : MacroEnv) (name : String) : Bool :=
  (env.lookup name).isSome

/-- Modelled from the spec: the kind of a resource catalog entry, `color | image | data`. -/
inductive CatalogKind
  | color
  | image
  | data
  deriving DecidableEq, Repr

/-- Modelled from the spec: a resource catalog entry, a kind and a catalog name. -/
structure CatalogEntry where
  catalogKind : CatalogKind
  name : String
  deriving DecidableEq, Repr

/-- Modelled from the spec: the name sanitizer, which strips from a catalog name every
character that is not a letter, a digit or an underscore. -/
def sanitize (name : String) : String := ⟨name.data.filter isIdentChar⟩

/-- The fixed lead of every generated symbol, as the header shows it. -/
def symbolPrefix : String := "AC"

/-- The symbol of the bundle-identifier constant, as the header shows it. -/
def bundleSymbol : String := "ACBundleID"

/-- The word the header's comments use for a kind (`color` is the one the header attests). -/
def kindWord : CatalogKind → String
  | .color => "color"
  | .image => "image"
  | .data => "data"

/-- Modelled from the spec: the kind segment of a symbol, `<prefix><Kind><Name>`.  The header
attests `ColorName` for colors; the other kinds follow the same pattern. -/
def kindSegment : CatalogKind → String
  | .color => "ColorName"
  | .image => "ImageName"
  | .data => "DataName"

/-- Modelled from the spec: the symbol of an entry, `prefix + kind + sanitize(name)`. -/
def symbolOf (e : CatalogEntry) : String :=
  symbolPrefix ++ kindSegment e.catalogKind ++ sanitize e.name

/-- Read a kind word. -/
def readKindWord (w : List Char) : Option CatalogKind :=
  if w = (kindWord .color).data then some .color
  else if w = (kindWord .image).data then some .image
  else if w = (kindWord .data).data then some .data
  else none

/-- Read the catalog entry a resource comment names:
`The "<name>" asset catalog <kind> resource.` -/
def readResourceDoc (t : String) : Option CatalogEntry :=
  match dropLead "The \"".data t.data with
  | none => none
  | some r1 =>
    match dropLead "\" asset catalog ".data (r1.dropWhile (fun c => c != '"')) with
    | none => none
    | some r2 =>
      match dropLead " resource.".data (r2.dropWhile Char.isAlpha) with
      | some [] =>
        (readKindWord (r2.takeWhile Char.isAlpha)).map
          fun k => ⟨k, ⟨r1.takeWhile (fun c => c != '"')⟩⟩
      | _ => none

/-- The catalog entry that the comment of a documented declaration names, if it names one. -/
def sourceEntry (d : Documented) : Option CatalogEntry :=
  match d.docs with
  | [t] => readResourceDoc t
  | _ => none

/-- Modelled from the spec: the two errors of generation, each carrying the offending
catalog entry. -/
inductive GenError
  | NameCollisionError (entry : CatalogEntry)
  | InvalidNameError (entry : CatalogEntry)
  deriving DecidableEq, Repr

/-- Modelled from the spec: the first entry, in catalog order, whose symbol is already
taken by an entry before it (`seen` holds the symbols taken so far). -/
def firstCollision : List String → List CatalogEntry → Option CatalogEntry
  | _, [] => none
  | seen, e :: rest =>
    if symbolOf e ∈ seen then some e else firstCollision (symbolOf e :: seen) rest

/-- Modelled from the spec: a name "cannot form a valid symbol" when nothing is left of it
after sanitizing. -/
def invalidName (e : CatalogEntry) : Bool := (sanitize e.name).data.isEmpty

/-- Modelled from the spec: the first entry, in catalog order, with an invalid name. -/
def firstInvalid (catalog : List CatalogEntry) : Option CatalogEntry :=
  catalog.find? invalidName

/-- The fixed preamble of the generated header (its first eight lines). -/
def preamble : List String :=
  [ "#import <Foundation/Foundation.h>",
    "",
    "#if __has_attribute(swift_private)",
    "#define AC_SWIFT_PRIVATE __attribute__((swift_private))",
    "#else",
    "#define AC_SWIFT_PRIVATE",
    "#endif",
    "" ]

/-- One constant declaration, in the form the header uses. -/
def declarationLine (symbol value : String) : String :=
  "static NSString * const " ++ symbol ++ " AC_SWIFT_PRIVATE = @\"" ++ value ++ "\";"

/-- The comment, declaration and blank line of the bundle-identifier constant. -/
def bundleBlock (bundleId : String) : List String :=
  [ "/// The resource bundle ID.", declarationLine bundleSymbol bundleId, "" ]

/-- The comment of a resource constant: it names the catalog entry. -/
def resourceDoc (e : CatalogEntry) : String :=
  "The \"" ++ e.name ++ "\" asset catalog " ++ kindWord e.catalogKind ++ " resource."

/-- The comment, declaration and blank line of one catalog entry. -/
def entryBlock (e : CatalogEntry) : List String :=
  [ "/// " ++ resourceDoc e, declarationLine (symbolOf e) e.name, "" ]

/-- The blocks of all entries, in catalog order. -/
def entryBlocks : List CatalogEntry → List String
  | [] => []
  | e :: rest => entryBlock e ++ entryBlocks rest

/-- Modelled from the spec: the lines of the generated text: the preamble, the bundle
constant, one constant per entry in catalog order, and the closing `#undef`. -/
def renderLines (bundleId : String) (catalog : List CatalogEntry) : List String :=
  preamble ++ bundleBlock bundleId ++ entryBlocks catalog ++ ["#undef AC_SWIFT_PRIVATE"]

/-- Modelled from the spec: the generated text. -/
def render (bundleId : String) (catalog : List CatalogEntry) : String :=
  joinLines (renderLines bundleId catalog)

/-- Modelled from the spec: the symbol table emitter.  Generation fails with
`NameCollisionError` when two entries map to one symbol, with `InvalidNameError` when a
name cannot form a symbol, and otherwise yields the whole text; a failure carries no text. -/
def generate (bundleId : String) (catalog : List CatalogEntry) : Except GenError String :=
  match firstCollision [] catalog with
  | some e => .error (.NameCollisionError e)
  | none =>
    match firstInvalid catalog with
    | some e => .error (.InvalidNameError e)
    | none => .ok (render bundleId catalog)

/-- Modelled from the spec: a valid catalog: no two entries map to one symbol and every
name leaves something after sanitizing. -/
def validCatalog (catalog : List CatalogEntry) : Prop :=
  (catalog.map symbolOf).Nodup ∧ ∀ e ∈ catalog, invalidName e = false

/-- The catalog the header was generated from, as its comments name it. -/
def headerCatalog : List CatalogEntry :=
  [ ⟨.color, "AccentOrange"⟩, ⟨.color, "DeepGreen"⟩, ⟨.color, "PrimaryYellow"⟩ ]

/-- The catalog entries that the comments of a list of lines name, in order. -/
def catalogOf (ls : List Line) : List CatalogEntry :=
  (documented ls).filterMap sourceEntry

/-- Cut a text at its newlines; a text without a newline is one line. -/
def splitLines : List Char → List (List Char)
  | [] => [[]]
  | c :: cs =>
    if c = '\n' then [] :: splitLines cs
    else
      match splitLines cs with
      | [] => [[c]]
      | l :: ls => (c :: l) :: ls

/-- The lines of a text. -/
def textLines (text : String) : List String := (splitLines text.data).map String.mk

/-- A text read as a header: cut into lines, each line read by `readLine`. -/
def readText (text : String) : List Line := (textLines text).map readLine

/-- A bundle identifier or catalog name that fits between the double quotes of a string
literal on one line as it is: it holds no double quote and no newline. -/
def plainText (s : String) : Bool := s.data.all fun c => c != '"' && c != '\n'

/-! ## Facts used by several results -/

theorem undefine_of_not_defined (env : MacroEnv) (n : String)
    (h : env.isDefined n = false) : env.undefine n = env := by
  have h1 : env.find? (fun m => m.1 == n) = none := by
    cases hf : env.find? (fun m => m.1 == n) with
    | none => rfl
    | some x => simp [MacroEnv.isDefined, MacroEnv.lookup, hf] at h
  simp only [MacroEnv.undefine, List.filter_eq_self]
  intro a ha
  have := List.find?_eq_none.1 h1 a ha
  simpa using this

theorem dropLead_append (p r : List Char) : dropLead p (p ++ r) = some r := by
  induction p with
  | nil => cases r <;> rfl
  | cons c p ih => simp [dropLead, ih]

theorem splitLines_single (a : List Char) (h : '\n' ∉ a) : splitLines a = [a] := by
  induction a with
  | nil => rfl
  | cons c a ih =>
    have hc : c ≠ '\n' := fun e => h (by simp [e])
    have ha : '\n' ∉ a := fun e => h (by simp [e])
    simp [splitLines, hc, ih ha]

theorem splitLines_append (a b : List Char) (h : '\n' ∉ a) :
    splitLines (a ++ '\n' :: b) = a :: splitLines b := by
  induction a with
  | nil => simp [splitLines]
  | cons c a ih =>
    have hc : c ≠ '\n' := fun e => h (by simp [e])
    have ha : '\n' ∉ a := fun e => h (by simp [e])
    simp [splitLines, hc, ih ha]

theorem textLines_joinLines (ls : List String) (hne : ls ≠ [])
    (h : ∀ l ∈ ls, '\n' ∉ l.data) : textLines (joinLines ls) = ls := by
  induction ls with
  | nil => exact absurd rfl hne
  | cons l rest ih =>
    cases rest with
    | nil =>
      simp [joinLines, textLines, splitLines_single _ (h l (by simp))]
    | cons l2 rest =>
      have h1 : '\n' ∉ l.data := h l (by simp)
      have h2 := ih (by simp) (fun x hx => h x (by simp [hx]))
      have hd : (joinLines (l :: l2 :: rest)).data
          = l.data ++ '\n' :: (joinLines (l2 :: rest)).data := by
        simp [joinLines, String.data_append]
      simp only [textLines] at h2 ⊢
      rw [hd, splitLines_append _ _ h1, List.map_cons, h2]

theorem takeWhile_append_stop (p : Char → Bool) (a b : List Char)
    (ha : ∀ c ∈ a, p c = true) (hb : b.takeWhile p = []) :
    (a ++ b).takeWhile p = a := by
  induction a with
  | nil => simpa using hb
  | cons c a ih =>
    simp [List.takeWhile, ha c (by simp), ih (fun x hx => ha x (by simp [hx]))]

theorem dropWhile_append_stop (p : Char → Bool) (a b : List Char)
    (ha : ∀ c ∈ a, p c = true) (hb : b.dropWhile p = b) :
    (a ++ b).dropWhile p = b := by
  induction a with
  | nil => simpa using hb
  | cons c a ih =>
    simp [List.dropWhile, ha c (by simp), ih (fun x hx => ha x (by simp [hx]))]
theorem sanitize_idem (s : String) : sanitize (sanitize s) = sanitize s := by
  simp [sanitize, List.filter_filter]

theorem firstCollision_eq_none (catalog : List CatalogEntry) :
    ∀ seen, firstCollision seen catalog = none ↔
      (∀ e ∈ catalog, symbolOf e ∉ seen) ∧ (catalog.map symbolOf).Nodup := by
  induction catalog with
  | nil => intro seen; simp [firstCollision]
  | cons e rest ih =>
    intro seen
    by_cases hs : symbolOf e ∈ seen
    · simp [firstCollision, hs]
    · simp only [firstCollision, hs, if_false, ih, List.mem_cons, not_or, List.map_cons,
        List.nodup_cons, List.mem_map, not_exists, not_and, forall_eq_or_imp]
      constructor
      · rintro ⟨h1, h2⟩
        exact ⟨⟨not_false, fun x hx => (h1 x hx).2⟩, fun x hx hxe => (h1 x hx).1 hxe, h2⟩
      · rintro ⟨⟨_, h1⟩, h2, h3⟩
        exact ⟨fun x hx => ⟨fun hxe => h2 x hx hxe, h1 x hx⟩, h3⟩

theorem firstCollision_eq_some (catalog : List CatalogEntry) :
    ∀ seen e, firstCollision seen catalog = some e →
      ∃ before after, catalog = before ++ e :: after ∧
        (symbolOf e ∈ seen ∨ symbolOf e ∈ before.map symbolOf) ∧
        (before.map symbolOf).Nodup ∧ ∀ x ∈ before, symbolOf x ∉ seen := by
  induction catalog with
  | nil => intro seen e h; simp [firstCollision] at h
  | cons a rest ih =>
    intro seen e h
    by_cases hs : symbolOf a ∈ seen
    · simp only [firstCollision, hs, if_true, Option.some.injEq] at h
      subst h
      exact ⟨[], rest, rfl, Or.inl hs, List.nodup_nil, by simp⟩
    · simp only [firstCollision, hs, if_false] at h
      obtain ⟨before, after, hcat, hmem, hnd, hseen⟩ := ih _ _ h
      refine ⟨a :: before, after, by simp [hcat], ?_, ?_, ?_⟩
      · rcases hmem with hm | hm
        · rcases List.mem_cons.1 hm with hm | hm
          · exact Or.inr (by simp [hm])
          · exact Or.inl hm
        · exact Or.inr (by simp [hm])
      · simp only [List.map_cons, List.nodup_cons, List.mem_map, not_exists, not_and]
        exact ⟨fun x hx hxa => (hseen x hx) (by simp [hxa]), hnd⟩
      · intro x hx
        rcases List.mem_cons.1 hx with hx | hx
        · subst hx; exact hs
        · exact fun hxs => hseen x hx (List.mem_cons_of_mem _ hxs)

theorem generate_of_valid (bundleId : String) (catalog : List CatalogEntry)
    (h : validCatalog catalog) : generate bundleId catalog = .ok (render bundleId catalog) := by
  have h1 : firstCollision [] catalog = none :=
    (firstCollision_eq_none catalog []).2 ⟨by simp, h.1⟩
  have h2 : firstInvalid catalog = none := by
    simp only [firstInvalid, List.find?_eq_none]
    intro e he
    simp [h.2 e he]
  simp [generate, h1, h2]

theorem readDeclaration_declarationLine (sym val : String)
    (hsym : ∀ c ∈ sym.data, isIdentChar c = true) (hval : '"' ∉ val.data) :
    readDeclaration (declarationLine sym val).data
      = some (.declaration sym "AC_SWIFT_PRIVATE" val) := by
  have hd : (declarationLine sym val).data = "static NSString * const ".data ++
      (sym.data ++ (" ".data ++ ("AC_SWIFT_PRIVATE".data ++ (" = @\"".data ++
        (val.data ++ "\";".data))))) := by
    simp [declarationLine, String.data_append]
  have hq : ∀ c ∈ val.data, (c != '"') = true := by
    intro c hc
    have : c ≠ '"' := fun e => hval (e ▸ hc)
    simpa using this
  have h1 : ∀ r, List.dropWhile isIdentChar (sym.data ++ (" ".data ++ r)) = " ".data ++ r :=
    fun r => dropWhile_append_stop _ _ _ hsym rfl
  have h2 : ∀ r, List.takeWhile isIdentChar (sym.data ++ (" ".data ++ r)) = sym.data :=
    fun r => takeWhile_append_stop _ _ _ hsym rfl
  have h3 : ∀ r, List.dropWhile isIdentChar ("AC_SWIFT_PRIVATE".data ++ (" = @\"".data ++ r))
      = " = @\"".data ++ r :=
    fun r => dropWhile_append_stop _ _ _ (by decide) rfl
  have h4 : ∀ r, List.takeWhile isIdentChar ("AC_SWIFT_PRIVATE".data ++ (" = @\"".data ++ r))
      = "AC_SWIFT_PRIVATE".data :=
    fun r => takeWhile_append_stop _ _ _ (by decide) rfl
  have h5 : List.dropWhile (fun c => c != '"') (val.data ++ "\";".data) = "\";".data :=
    dropWhile_append_stop _ _ _ hq rfl
  have h6 : List.takeWhile (fun c => c != '"') (val.data ++ "\";".data) = val.data :=
    takeWhile_append_stop _ _ _ hq rfl
  rw [hd]
  simp only [readDeclaration, dropLead_append, h1, h2, h3, h4, h5, h6]

theorem readLine_declarationLine (sym val : String)
    (hsym : ∀ c ∈ sym.data, isIdentChar c = true) (hval : '"' ∉ val.data) :
    readLine (declarationLine sym val) = .declaration sym "AC_SWIFT_PRIVATE" val := by
  have hd : ∃ r, (declarationLine sym val).data = 's' :: r :=
    ⟨_, by simp [declarationLine, String.data_append]; rfl⟩
  obtain ⟨r, hr⟩ := hd
  have hdoc : dropLead "/// ".data (declarationLine sym val).data = none := by
    rw [hr]; simp [dropLead]
  unfold readLine
  split
  · next h => rw [hr] at h; cases h
  · next rest h => rw [hr] at h; cases h
  · simp only [hdoc, readDeclaration_declarationLine sym val hsym hval]

theorem readLine_doc (t : String) : readLine ("/// " ++ t) = .docComment t := by
  have hr : ("/// " ++ t).data = "/// ".data ++ t.data := String.data_append _ _
  have hdoc : dropLead "/// ".data ("/// " ++ t).data = some t.data := by
    rw [hr, dropLead_append]
  unfold readLine
  split
  · next h => rw [hr] at h; cases h
  · next rest h => rw [hr] at h; cases h
  · simp only [hdoc]

theorem plainText_spec (s : String) (h : plainText s = true) :
    '"' ∉ s.data ∧ '\n' ∉ s.data := by
  simp only [plainText, List.all_eq_true, Bool.and_eq_true, bne_iff_ne, ne_eq] at h
  exact ⟨fun hm => (h _ hm).1 rfl, fun hm => (h _ hm).2 rfl⟩

theorem symbolOf_ident (e : CatalogEntry) : ∀ c ∈ (symbolOf e).data, isIdentChar c = true := by
  intro c hc
  simp only [symbolOf, sanitize, String.data_append, List.mem_append, List.mem_filter] at hc
  rcases hc with (hc | hc) | hc
  · revert c; decide
  · revert c; cases e.catalogKind <;> decide
  · exact hc.2

theorem noNewline_of_ident (s : String) (h : ∀ c ∈ s.data, isIdentChar c = true) :
    '\n' ∉ s.data := fun hm => absurd (h _ hm) (by decide)

theorem noNewline_declarationLine (sym val : String) (hs : '\n' ∉ sym.data)
    (hv : '\n' ∉ val.data) : '\n' ∉ (declarationLine sym val).data := by
  simp only [declarationLine, String.data_append, List.mem_append, not_or]
  exact ⟨⟨⟨⟨by decide, hs⟩, by decide⟩, hv⟩, by decide⟩

theorem noNewline_entryBlocks (catalog : List CatalogEntry)
    (h : ∀ e ∈ catalog, plainText e.name = true) :
    ∀ l ∈ entryBlocks catalog, '\n' ∉ l.data := by
  induction catalog with
  | nil => simp [entryBlocks]
  | cons e rest ih =>
    have hn := (plainText_spec _ (h e (by simp))).2
    intro l hl
    simp only [entryBlocks, entryBlock, List.mem_append, List.mem_cons, List.not_mem_nil,
      or_false] at hl
    rcases hl with (rfl | rfl | rfl) | hl
    · cases hk : e.catalogKind <;>
        simp [resourceDoc, kindWord, String.data_append, hn, hk]
    · exact noNewline_declarationLine _ _ (noNewline_of_ident _ (symbolOf_ident e)) hn
    · decide
    · exact ih (fun x hx => h x (by simp [hx])) l hl

theorem noNewline_renderLines (bundleId : String) (catalog : List CatalogEntry)
    (hb : plainText bundleId = true) (h : ∀ e ∈ catalog, plainText e.name = true) :
    ∀ l ∈ renderLines bundleId catalog, '\n' ∉ l.data := by
  intro l hl
  simp only [renderLines, bundleBlock, List.mem_append, List.mem_cons, List.not_mem_nil,
    or_false] at hl
  rcases hl with ((hl | rfl | rfl | rfl) | hl) | rfl
  · revert l; decide
  · decide
  · exact noNewline_declarationLine _ _ (by decide) (plainText_spec _ hb).2
  · decide
  · exact noNewline_entryBlocks catalog h l hl
  · decide

theorem constants_append (xs ys : List Line) :
    constants (xs ++ ys) = constants xs ++ constants ys := by
  induction xs with
  | nil => rfl
  | cons x xs ih => cases x <;> simp [constants, ih]

theorem readLine_empty : readLine "" = .blank := by
  decide

theorem constants_entryBlocks (catalog : List CatalogEntry)
    (h : ∀ e ∈ catalog, plainText e.name = true) :
    constants ((entryBlocks catalog).map readLine)
      = catalog.map fun e => (symbolOf e, e.name) := by
  induction catalog with
  | nil => rfl
  | cons e rest ih =>
    have hq := (plainText_spec _ (h e (by simp))).1
    have hb : entryBlocks (e :: rest) = ("/// " ++ resourceDoc e) ::
        declarationLine (symbolOf e) e.name :: "" :: entryBlocks rest := rfl
    rw [hb]
    simp only [List.map_cons, readLine_doc, readLine_empty,
      readLine_declarationLine _ _ (symbolOf_ident e) hq, constants,
      ih (fun x hx => h x (by simp [hx]))]

theorem constants_renderLines (bundleId : String) (catalog : List CatalogEntry)
    (hb : plainText bundleId = true) (h : ∀ e ∈ catalog, plainText e.name = true) :
    constants ((renderLines bundleId catalog).map readLine)
      = (bundleSymbol, bundleId) :: catalog.map fun e => (symbolOf e, e.name) := by
  have hq := (plainText_spec _ hb).1
  have hp : constants (preamble.map readLine) = [] := by decide
  have hdoc : readLine "/// The resource bundle ID." = .docComment "The resource bundle ID." := by
    decide
  have hun : readLine "#undef AC_SWIFT_PRIVATE" = .directive (.undefine "AC_SWIFT_PRIVATE") := by
    decide
  have hr : renderLines bundleId catalog = preamble ++
      ("/// The resource bundle ID." :: declarationLine bundleSymbol bundleId :: "" ::
        (entryBlocks catalog ++ ["#undef AC_SWIFT_PRIVATE"])) := by
    simp [renderLines, bundleBlock]
  rw [hr]
  simp only [List.map_append, List.map_cons, List.map_nil, constants_append, hp, hdoc, hun,
    readLine_empty,
    readLine_declarationLine _ _ (by decide : ∀ c ∈ bundleSymbol.data, isIdentChar c = true) hq,
    constants, constants_entryBlocks catalog h, List.nil_append, List.append_nil]

theorem constants_render (bundleId : String) (catalog : List CatalogEntry)
    (hb : plainText bundleId = true) (h : ∀ e ∈ catalog, plainText e.name = true) :
    constants (readText (render bundleId catalog))
      = (bundleSymbol, bundleId) :: catalog.map fun e => (symbolOf e, e.name) := by
  have hne : renderLines bundleId catalog ≠ [] := by simp [renderLines, preamble]
  rw [readText, render,
    textLines_joinLines _ hne (noNewline_renderLines bundleId catalog hb h)]
  exact constants_renderLines bundleId catalog hb h

/-- The emitter, run on the bundle identifier and the catalog of the header, writes the
header of the repository byte for byte. -/
theorem generate_reproduces_header :
    generate "IOI.DF799" headerCatalog = .ok headerText ∧ catalogOf headerRead = headerCatalog :=
  ⟨rfl, by decide⟩

/-! ## Results -/

/-- C1: the header declares exactly four string constants and no others; read top to bottom
they are `ACBundleID` with value `IOI.DF799`, then the three color constants with values
`AccentOrange`, `DeepGreen`, `PrimaryYellow`.  Every line of the header is read (none is
left unrecognised) and written back from what was read it is the line itself, so no
declaration escapes the count; the three color values are the catalog entries the comments
name, in that order. -/
theorem header_declares_four_constants :
    constants headerRead =
        [ ("ACBundleID", "IOI.DF799"),
          ("ACColorNameAccentOrange", "AccentOrange"),
          ("ACColorNameDeepGreen", "DeepGreen"),
          ("ACColorNamePrimaryYellow", "PrimaryYellow") ]
      ∧ (constants headerRead).length = 4
      ∧ (∀ l ∈ headerRead, l.isUnknown = false)
      ∧ headerRead.map Line.text = headerLines
      ∧ (constants headerRead).map Prod.snd
          = "IOI.DF799" :: (catalogOf headerRead).map CatalogEntry.name
      ∧ catalogOf headerRead
          = [ ⟨.color, "AccentOrange"⟩, ⟨.color, "DeepGreen"⟩, ⟨.color, "PrimaryYellow"⟩ ] := by
  decide

/-- C2: every resource constant of the header (every constant but the bundle-id one) is
documented by a comment naming a catalog entry, its symbol is
`prefix + kind + sanitize(name)` for that entry with the prefix `AC`, its value is the
catalog name itself, and, the entries being colors, its symbol is `ACColorName` followed
by its own literal value. -/
theorem header_symbols_follow_naming :
    (∀ d ∈ documented headerRead, d.symbol ≠ bundleSymbol →
        (sourceEntry d).map
            (fun e => (symbolPrefix ++ kindSegment e.catalogKind ++ sanitize e.name, e.name,
              e.catalogKind))
          = some (d.symbol, d.value, CatalogKind.color)
        ∧ d.symbol = "ACColorName" ++ d.value)
      ∧ symbolPrefix = "AC"
      ∧ (documented headerRead).map Documented.symbol
          = bundleSymbol :: (catalogOf headerRead).map symbolOf
      ∧ (catalogOf headerRead).length = 3 := by
  decide

/-- C3: generation is deterministic.  For a valid catalog the emitter yields a text, and
two runs on the same bundle identifier and the same catalog yield the same text, byte for
byte.  The order of the constants and their symbols are stable: when the bundle identifier
and the names hold no double quote and no newline, the constants read back from the text
are the bundle-id constant followed by one constant per entry, in catalog order, each
under the symbol `symbolOf` of its entry and with the entry's name as value. -/
theorem generate_deterministic (bundleA bundleB : String) (catalogA catalogB : List CatalogEntry)
    (hvalid : validCatalog catalogA) (hbundle : bundleA = bundleB)
    (hcatalog : catalogA = catalogB) :
    ∃ text, generate bundleA catalogA = .ok text ∧ generate bundleB catalogB = .ok text
      ∧ (plainText bundleA = true → (∀ e ∈ catalogA, plainText e.name = true) →
          constants (readText text)
            = (bundleSymbol, bundleA) :: catalogA.map fun e => (symbolOf e, e.name)) := by
  subst hbundle hcatalog
  exact ⟨render bundleA catalogA, generate_of_valid _ _ hvalid, generate_of_valid _ _ hvalid,
    constants_render bundleA catalogA⟩

/-- Witness of C3: the catalog of the header is valid; both runs on it give one text, which
is the header of the repository, and the constants read back from it are the four of the
header in catalog order. -/
theorem generate_deterministic_witness :
    validCatalog headerCatalog ∧
      ∃ text, generate "IOI.DF799" headerCatalog = .ok text
        ∧ generate "IOI.DF799" headerCatalog = .ok text
        ∧ text = headerText
        ∧ constants (readText text) =
            [ ("ACBundleID", "IOI.DF799"),
              ("ACColorNameAccentOrange", "AccentOrange"),
              ("ACColorNameDeepGreen", "DeepGreen"),
              ("ACColorNamePrimaryYellow", "PrimaryYellow") ] :=
  ⟨by unfold validCatalog; decide,
    match generate_deterministic "IOI.DF799" "IOI.DF799" headerCatalog headerCatalog
      (by unfold validCatalog; decide) rfl rfl with
    | ⟨text, h1, h2, h3⟩ =>
      ⟨text, h1, h2, Except.ok.inj (h1.symm.trans generate_reproduces_header.1),
        (h3 (by decide) (by decide)).trans (by decide)⟩⟩

/-- C4: every symbol the header declares is a valid identifier, and the four symbols are
pairwise distinct. -/
theorem header_symbols_valid_and_distinct :
    (∀ p ∈ constants headerRead, isValidIdentifier p.1 = true)
      ∧ ((constants headerRead).map Prod.fst).Nodup
      ∧ ((constants headerRead).map Prod.fst).length = 4 := by
  decide

/-- C5, as stated, fails: the bundle-id constant is preceded by exactly one comment,
`The resource bundle ID.`, and that comment does not contain the quoted value
`"IOI.DF799"` (nor the value without its quotes). -/
theorem bundle_comment_lacks_value :
    ¬ (∀ d ∈ documented headerRead, docNamesValue d = true)
      ∧ (documented headerRead).head?
          = some ⟨["The resource bundle ID."], "ACBundleID", "IOI.DF799"⟩
      ∧ containsSub (quoted "IOI.DF799").data "The resource bundle ID.".data = false
      ∧ containsSub "IOI.DF799".data "The resource bundle ID.".data = false := by
  decide

/-- C5, amended: every one of the four declarations is directly preceded by exactly one
documentation comment line; for the three resource constants that comment names the
catalog entry and contains the quoted literal value of the constant; the comment of the
bundle-id constant is the fixed text `The resource bundle ID.`. -/
theorem header_constants_documented :
    (documented headerRead).map (fun d => (d.symbol, d.value)) = constants headerRead
      ∧ (∀ d ∈ documented headerRead, d.docs.length = 1)
      ∧ (∀ d ∈ documented headerRead, d.symbol ≠ bundleSymbol →
          docNamesValue d = true ∧ (sourceEntry d).map CatalogEntry.name = some d.value)
      ∧ (∀ d ∈ documented headerRead, d.symbol = bundleSymbol →
          d.docs = ["The resource bundle ID."]) := by
  decide

/-- C6: when two entries of a catalog map to the same symbol, generation fails with
`NameCollisionError` and yields no text; the error carries the offending entry, the first
entry of the catalog whose symbol is already taken by an entry before it. -/
theorem generate_collision_fails (bundleId : String) (catalog : List CatalogEntry)
    (hcollide : ∃ i j, i < j ∧ j < catalog.length ∧
      (catalog.map symbolOf)[i]? = (catalog.map symbolOf)[j]?) :
    ∃ e before after,
      generate bundleId catalog = .error (.NameCollisionError e)
        ∧ (∀ text, generate bundleId catalog ≠ .ok text)
        ∧ catalog = before ++ e :: after
        ∧ symbolOf e ∈ before.map symbolOf
        ∧ (before.map symbolOf).Nodup := by
  have hnd : ¬ (catalog.map symbolOf).Nodup := by
    intro hnd
    obtain ⟨i, j, hij, hj, heq⟩ := hcollide
    exact (List.nodup_iff_getElem?_ne_getElem?.1 hnd) i j hij (by simpa using hj) heq
  cases hfc : firstCollision [] catalog with
  | none => exact absurd ((firstCollision_eq_none catalog []).1 hfc).2 hnd
  | some e =>
    obtain ⟨before, after, hcat, hmem, hbefore, _⟩ := firstCollision_eq_some catalog [] e hfc
    have hgen : generate bundleId catalog = .error (.NameCollisionError e) := by
      simp [generate, hfc]
    refine ⟨e, before, after, hgen, ?_, hcat, ?_, hbefore⟩
    · intro text h
      rw [hgen] at h
      cases h
    · rcases hmem with hm | hm
      · simp at hm
      · exact hm

/-- Witness of C6: `Deep Green` and `DeepGreen` both map to `ACColorNameDeepGreen`. -/
theorem generate_collision_fails_witness :
    ∃ e before after,
      generate "IOI.DF799" [⟨.color, "Deep Green"⟩, ⟨.color, "DeepGreen"⟩]
          = .error (.NameCollisionError e)
        ∧ (∀ text, generate "IOI.DF799" [⟨.color, "Deep Green"⟩, ⟨.color, "DeepGreen"⟩]
            ≠ .ok text)
        ∧ [⟨.color, "Deep Green"⟩, ⟨.color, "DeepGreen"⟩] = before ++ e :: after
        ∧ symbolOf e ∈ before.map symbolOf
        ∧ (before.map symbolOf).Nodup :=
  generate_collision_fails "IOI.DF799" [⟨.color, "Deep Green"⟩, ⟨.color, "DeepGreen"⟩]
    ⟨0, 1, by decide, by decide, by decide⟩

/-- C7: the name sanitizer is idempotent, and each of the three catalog names of the
header is a fixed point of it. -/
theorem sanitize_idempotent :
    (∀ s, sanitize (sanitize s) = sanitize s)
      ∧ (∀ e ∈ catalogOf headerRead, sanitize e.name = e.name)
      ∧ (catalogOf headerRead).map CatalogEntry.name
          = ["AccentOrange", "DeepGreen", "PrimaryYellow"]
      ∧ sanitize "AccentOrange" = "AccentOrange"
      ∧ sanitize "DeepGreen" = "DeepGreen"
      ∧ sanitize "PrimaryYellow" = "PrimaryYellow" :=
  ⟨sanitize_idem, by decide, by decide, by decide, by decide, by decide⟩

end GeneratedAssetSymbols
